import Mathlib

/-!
Verification of the data-loading, validation and forecast-writing pipeline of
`src/arquivo.py` (monthly quantity forecasting script).  The script is embedded
shallowly: each stage of the pipeline becomes an executable Lean definition and
the behavioural properties of the specification are proved as theorems about
those definitions.
-/

namespace Arquivo

/-! ### Column Resolver (arquivo.py lines 36-49)

The script normalises column names, then picks the date column:
if a column named exactly "Data" exists it is chosen, otherwise the first
column whose Python-lowercased name contains one of the substrings
"data", "mes", "mês", "month", "date" is chosen.  If nothing matches, the
variable `date_col` is never assigned, so the subsequent line
`if not date_col:` raises an unhandled NameError in Python. -/

/-- Model of Python `str.lower` applied to one character: ASCII upper case and
the Latin-1 accented upper-case letters (the range À..Þ except ×) map to the
code point 32 higher; every other character is unchanged. -/
def charLower (c : Char) : Char :=
  if ('A' ≤ c ∧ c ≤ 'Z') ∨ ('À' ≤ c ∧ c ≤ 'Þ' ∧ c ≠ '×') then
    Char.ofNat (c.toNat + 32)
  else c

/-- Model of Python `str.lower` on a whole string. -/
def pyLower (s : String) : String := ⟨s.data.map charLower⟩

/-- Model of the Python substring test `needle in hay` on character lists. -/
def hasSub (needle : List Char) : List Char → Bool
  | [] => needle.isEmpty
  | c :: t => needle.isPrefixOf (c :: t) || hasSub needle t

/-- Substring containment on strings, as Python `needle in hay`. -/
def containsSub (hay needle : String) : Bool := hasSub needle.data hay.data

/-- The heuristic substrings tested against the lowercased column name
(arquivo.py line 41). -/
def heuristicSubs : List String := ["data", "mes", "mês", "month", "date"]

/-- True when the lowercased column name contains one of the heuristic
substrings (the condition of the `if` on arquivo.py line 41). -/
def heuristicMatch (c : String) : Bool :=
  heuristicSubs.any (fun n => containsSub (pyLower c) n)

/-- The value the Python variable `date_col` holds after lines 36-43:
`some "Data"` when a column is named exactly "Data", otherwise the first
column (in declared order) whose lowercased name matches the heuristic;
`none` when the variable is never assigned. -/
def dateColAssign (cols : List String) : Option String :=
  if "Data" ∈ cols then some "Data"
  else cols.find? (fun c => heuristicMatch c)

/-- Outcome of the column-resolution block (arquivo.py lines 36-49). -/
inductive ResolveOutcome where
  | ok (col : String)
  | configError (colsListed : List String)
  | nameError
deriving DecidableEq

/-- Full behaviour of lines 36-49.  When `date_col` was never assigned the
line `if not date_col:` raises NameError (modelled `nameError`); when it was
assigned, `not date_col` tests string falsiness, i.e. emptiness, and only an
empty string would reach the diagnostic branch that prints the available
columns and exits (modelled `configError`). -/
def resolveDateCol (cols : List String) : ResolveOutcome :=
  match dateColAssign cols with
  | none => ResolveOutcome.nameError
  | some c => if c = "" then ResolveOutcome.configError cols else ResolveOutcome.ok c

/-! ### Date Normalizer (arquivo.py lines 52-63)

`pd.to_datetime` is tried first with the strict month/year format and the
errors mode set to raise, so a single non-conforming value aborts the whole
strict conversion; the `except` branch then re-parses the whole column with a
lenient day-first parser whose errors mode coerces unparseable values to NaT
(modelled `none`). -/

/-- A calendar date as (year, month, day). -/
structure Date where
  year : Nat
  month : Nat
  day : Nat
deriving DecidableEq, Inhabited

/-- True when the character is an ASCII digit. -/
def isDigitChar (c : Char) : Bool := '0' ≤ c && c ≤ '9'

/-- Numeric value of a digit string. -/
def digitsToNat (cs : List Char) : Nat :=
  cs.foldl (fun n c => n * 10 + (c.toNat - 48)) 0

/-- Split a character list on the slash character, as Python `split` on a
single separator. -/
def splitSlash : List Char → List (List Char)
  | [] => [[]]
  | c :: t =>
    if c = '/' then [] :: splitSlash t
    else
      match splitSlash t with
      | [] => [[c]]
      | h :: r => (c :: h) :: r

/-- Strict per-value parse for the pandas format string for month/year:
one or two digits for the month (value 1..12), a slash, four digits for the
year.  The day defaults to the first of the month. -/
def strictParseVal (s : String) : Option Date :=
  match splitSlash s.data with
  | [ms, ys] =>
    if ms.all isDigitChar ∧ 1 ≤ ms.length ∧ ms.length ≤ 2 ∧
        ys.all isDigitChar ∧ ys.length = 4 then
      let m := digitsToNat ms
      if 1 ≤ m ∧ m ≤ 12 then some ⟨digitsToNat ys, m, 1⟩ else none
    else none
  | _ => none

/-- Model of the lenient day-first parser used in the fallback
(`dayfirst` set, unparseable values coerced to `none`): accepts
day/month/year and month/year shapes, anything else becomes `none`.
The claims depend only on per-value success or failure and on null marking,
not on the exact family of accepted shapes. -/
def lenientParseVal (s : String) : Option Date :=
  match splitSlash s.data with
  | [ds, ms, ys] =>
    if ds.all isDigitChar ∧ 1 ≤ ds.length ∧ ds.length ≤ 2 ∧
        ms.all isDigitChar ∧ 1 ≤ ms.length ∧ ms.length ≤ 2 ∧
        ys.all isDigitChar ∧ ys.length = 4 then
      let d := digitsToNat ds
      let m := digitsToNat ms
      if 1 ≤ d ∧ d ≤ 31 ∧ 1 ≤ m ∧ m ≤ 12 then
        some ⟨digitsToNat ys, m, d⟩
      else none
    else none
  | [ms, ys] =>
    if ms.all isDigitChar ∧ 1 ≤ ms.length ∧ ms.length ≤ 2 ∧
        ys.all isDigitChar ∧ ys.length = 4 then
      let m := digitsToNat ms
      if 1 ≤ m ∧ m ≤ 12 then some ⟨digitsToNat ys, m, 1⟩ else none
    else none
  | _ => none

/-- The strict whole-column conversion with the errors mode set to raise: it
succeeds with the list of parsed dates only when every value parses, and
fails (raises, modelled `none`) as soon as any value fails. -/
def strictParseCol : List String → Option (List Date)
  | [] => some []
  | v :: t =>
    match strictParseVal v, strictParseCol t with
    | some d, some ds => some (d :: ds)
    | _, _ => none

/-- Result of the two-tier conversion at arquivo.py lines 52-57. -/
inductive ParseResult where
  | strict (dates : List Date)
  | lenient (dates : List (Option Date))
deriving DecidableEq

/-- The try/except of arquivo.py lines 52-57: strict conversion first; if it
raises, the whole column is re-parsed leniently with per-value null
coercion. -/
def parseDates (vals : List String) : ParseResult :=
  match strictParseCol vals with
  | some ds => ParseResult.strict ds
  | none => ParseResult.lenient (vals.map lenientParseVal)

/-- Outcome of the post-fallback check at arquivo.py lines 57-63. -/
inductive FallbackOutcome where
  | dataFormatError
  | proceedWithWarning (dates : List (Option Date))
deriving DecidableEq

/-- The all-null check on the converted column after the fallback: all-null
aborts with a data-format diagnostic, otherwise the run proceeds and prints
the partial-conversion warning. -/
def fallbackCheck (dates : List (Option Date)) : FallbackOutcome :=
  if dates.all (fun d => d.isNone) then FallbackOutcome.dataFormatError
  else FallbackOutcome.proceedWithWarning dates

/-! ### Cleaner/Sorter (arquivo.py lines 66-76)

`df = df.sort_values(by='Data')` sorts ascending by the converted date with
missing dates (NaT) placed last, then `df = df.dropna(subset=['QNT'])` drops
only the rows whose quantity is missing; the series handed to the model is
the quantity column of the result. -/

/-- One dataframe row after date conversion: the converted date (NaT is
`none`) and the quantity (missing is `none`). -/
structure Row where
  data : Option Date
  qnt : Option Int
deriving DecidableEq

/-- Calendar order on dates: lexicographic on (year, month, day). -/
def dateLe (a b : Date) : Prop :=
  a.year < b.year ∨ (a.year = b.year ∧
    (a.month < b.month ∨ (a.month = b.month ∧ a.day ≤ b.day)))

instance : DecidableRel dateLe := fun a b => by
  unfold dateLe
  infer_instance

/-- Sort-key order used by the dataframe sort: ascending dates with missing
dates (NaT) placed last, matching the default null position of the sort. -/
def naLastLe : Option Date → Option Date → Prop
  | none, none => True
  | none, some _ => False
  | some _, none => True
  | some a, some b => dateLe a b

instance : DecidableRel naLastLe := fun a b =>
  match a, b with
  | none, none => isTrue trivial
  | none, some _ => isFalse (fun h => h)
  | some _, none => isTrue trivial
  | some x, some y => inferInstanceAs (Decidable (dateLe x y))

/-- Row order used by `sort_values(by='Data')`. -/
def rowLe (a b : Row) : Prop := naLastLe a.data b.data

instance : DecidableRel rowLe := fun a b =>
  inferInstanceAs (Decidable (naLastLe a.data b.data))

instance : IsTotal Row rowLe :=
  ⟨fun a b => by
    unfold rowLe
    cases a.data with
    | none =>
      cases b.data with
      | none => exact Or.inl trivial
      | some y => exact Or.inr trivial
    | some x =>
      cases b.data with
      | none => exact Or.inl trivial
      | some y =>
        show dateLe x y ∨ dateLe y x
        unfold dateLe
        omega⟩

instance : IsTrans Row rowLe :=
  ⟨fun a b c hab hbc => by
    unfold rowLe at *
    cases ha : a.data <;> cases hb : b.data <;> cases hc : c.data <;>
      rw [ha, hb] at hab <;> rw [hb, hc] at hbc <;>
      first
      | exact trivial
      | exact hab
      | exact hbc
      | exact hbc.elim
      | exact hab.elim
      | · show dateLe _ _
          have h1 : dateLe _ _ := hab
          have h2 : dateLe _ _ := hbc
          unfold dateLe at *
          omega⟩

/-- The cleaned series of arquivo.py lines 66-76: sort ascending by date
(missing dates last), then drop exactly the rows with a missing quantity.
The rows that remain, in this order, are the observations handed to the
forecaster. -/
def cleanedSeries (rows : List Row) : List Row :=
  (List.insertionSort rowLe rows).filter (fun r => r.qnt.isSome)

/-! ### Forecast-count derivation (arquivo.py lines 110-119)

`num_previsoes = mes_final_desejado - ultima_data.month` with the final month
fixed at 12; a non-positive count prints the data-already-complete message
and calls `sys.exit()` with no argument, which is exit status 0 (success). -/

/-- The fixed final desired month (December). -/
def mesFinalDesejado : Int := 12

/-- Number of forecasts requested from the last observed date. -/
def numPrevisoes (ultimaData : Date) : Int :=
  mesFinalDesejado - (ultimaData.month : Int)

/-- Decision taken at arquivo.py lines 116-119.  `noopComplete` models the
data-already-complete message followed by `sys.exit()` with no argument
(exit status 0, a normal termination, not an error — the decision type has
no error alternative because this branch cannot fail). -/
inductive ForecastDecision where
  | noopComplete
  | forecast (steps : Nat)
deriving DecidableEq

/-- The branch on the forecast count. -/
def forecastDecision (ultimaData : Date) : ForecastDecision :=
  if numPrevisoes ultimaData ≤ 0 then ForecastDecision.noopComplete
  else ForecastDecision.forecast (numPrevisoes ultimaData).toNat

/-! ### Rounding and the forecast list (arquivo.py lines 132-141)

Each predicted mean is rounded with Python `round`, which rounds half to
even (bankers rounding); the rounded value is stored in the
`previsoes_finais` list in forecast order. -/

/-- Python `round` to an integer on an exact rational: round half to even. -/
def pyRound (q : ℚ) : ℤ :=
  if q - ⌊q⌋ < 1 / 2 then ⌊q⌋
  else if 1 / 2 < q - ⌊q⌋ then ⌊q⌋ + 1
  else if ⌊q⌋ % 2 = 0 then ⌊q⌋ else ⌊q⌋ + 1

/-- The `previsoes_finais` list built at arquivo.py lines 132-141: each
forecast point keeps its date and its rounded predicted quantity, in
forecast chronological order. -/
def previsoesFinais (series : List (Date × ℚ)) : List (Date × ℤ) :=
  series.map (fun p => (p.1, pyRound p.2))

/-- The rounded values the writer consumes, in forecast order. -/
def valoresPrevisao (series : List (Date × ℚ)) : List ℤ :=
  (previsoesFinais series).map (fun p => p.2)

/-! ### Writer (arquivo.py lines 146-197)

The target sheet, column and rows are fixed configuration; the length check
between forecasts and target rows runs before the try block that loads the
workbook; inside the try block the sheet is selected (or created), each
forecast is written to its cell on the in-memory workbook, and the workbook
is saved exactly once after the loop. -/

/-- Fixed writer configuration (arquivo.py lines 146-149). -/
def abaAlvo : String := "graficos"

/-- Target column index (spreadsheet column F). -/
def colunaAlvo : Nat := 6

/-- Target rows, one per expected forecast. -/
def linhasAlvo : List Nat := [11, 12, 13, 14]

/-- One staged cell write: sheet name, row, column, integer value. -/
structure WriteEv where
  sheet : String
  row : Nat
  col : Nat
  value : ℤ
deriving DecidableEq, Inhabited

/-- The cell writes performed by the loop at arquivo.py lines 175-191, in
loop order: position i goes to row `linhasAlvo[i]`, fixed column, fixed
sheet. -/
def writeEvents (vals : List ℤ) : List WriteEv :=
  (linhasAlvo.zip vals).map
    (fun p => { sheet := abaAlvo, row := p.1, col := colunaAlvo, value := p.2 })

/-- Outcome of the writer stage. -/
inductive WriterOutcome where
  | consistencyError (nPrev nLinhas : Nat)
  | saved (events : List WriteEv)
deriving DecidableEq

/-- The writer stage: the consistency check at arquivo.py lines 154-157
aborts on a length mismatch before anything else; otherwise all writes are
staged and the workbook is saved. -/
def writerRun (vals : List ℤ) : WriterOutcome :=
  if vals.length ≠ linhasAlvo.length then
    WriterOutcome.consistencyError vals.length linhasAlvo.length
  else WriterOutcome.saved (writeEvents vals)

/-- The observable actions of the writer stage, in program order. -/
inductive Action where
  | loadWorkbook
  | selectSheet (name : String)
  | createSheet (name : String)
  | cellWrite (ev : WriteEv)
  | save
deriving DecidableEq

/-- The action trace of arquivo.py lines 154-193: nothing at all happens on
a consistency mismatch (the exit precedes the workbook load); otherwise the
workbook is loaded, the target sheet selected or created, every cell write
staged, and the single save performed last. -/
def writerTrace (vals : List ℤ) (sheetExists : Bool) : List Action :=
  if vals.length ≠ linhasAlvo.length then []
  else
    (Action.loadWorkbook ::
      (if sheetExists then Action.selectSheet abaAlvo
       else Action.createSheet abaAlvo) ::
      (writeEvents vals).map Action.cellWrite) ++ [Action.save]

/-- Execution state of the writer: staged in-memory writes, the journal of
writes applied to the on-disk file, and how many saves ran. -/
structure ExecState where
  memory : List WriteEv
  disk : List WriteEv
  saves : Nat
deriving DecidableEq

/-- Effect of one action: cell writes only touch the in-memory workbook;
only the save applies the staged writes to the disk file. -/
def stepAction (s : ExecState) : Action → ExecState
  | Action.cellWrite ev => { s with memory := s.memory ++ [ev] }
  | Action.save => { s with disk := s.disk ++ s.memory, saves := s.saves + 1 }
  | _ => s

/-- Run a list of actions from a state. -/
def runActions (s : ExecState) (l : List Action) : ExecState :=
  l.foldl stepAction s

/-- Initial state over a given prior on-disk content. -/
def initState (d : List WriteEv) : ExecState :=
  { memory := [], disk := d, saves := 0 }

end Arquivo

namespace Arquivo

/-- Helper: `find?` returns the first element of the list satisfying the
predicate, scanned left to right. -/
theorem find?_first {α : Type} (p : α → Bool) (pre suf : List α) (c : α)
    (hpre : ∀ x ∈ pre, p x = false) (hc : p c = true) :
    (pre ++ c :: suf).find? p = some c := by
  induction pre with
  | nil => simp [List.find?, hc]
  | cons a t ih =>
    have ha : p a = false := hpre a (List.mem_cons_self a t)
    simp only [List.cons_append, List.find?, ha]
    exact ih fun x hx => hpre x (List.mem_cons_of_mem a hx)

/-- C1: if a column named exactly "Data" exists it is selected as the date
column; otherwise the selected column is the first column, in the declared
order of the table, whose lowercased name contains one of the heuristic
substrings (first match wins). -/
theorem C1_column_resolver (cols : List String) :
    ("Data" ∈ cols → dateColAssign cols = some "Data") ∧
    ("Data" ∉ cols → ∀ pre c suf, cols = pre ++ c :: suf →
      heuristicMatch c = true → (∀ x ∈ pre, heuristicMatch x = false) →
      dateColAssign cols = some c) := by
  constructor
  · intro h
    simp [dateColAssign, h]
  · intro h pre c suf hcols hc hpre
    subst hcols
    simp only [dateColAssign, if_neg h]
    exact find?_first _ pre suf c hpre hc

/-- C1 witness: "Data" is absent, "Produto" does not match the heuristic,
"Mes Ref" is the first heuristic match and is selected over the later
"Date2". -/
theorem C1_column_resolver_witness :
    dateColAssign ["Produto", "Mes Ref", "Date2"] = some "Mes Ref" :=
  (C1_column_resolver ["Produto", "Mes Ref", "Date2"]).2 (by decide)
    ["Produto"] "Mes Ref" ["Date2"] rfl (by decide) (by decide)

/-- C2 (code bug): when neither an exact "Data" column nor a heuristic match
exists, the Python variable `date_col` is unbound, so `if not date_col:`
raises NameError; the diagnostic branch that would print a configuration
error listing the available columns is unreachable for every input. -/
theorem C2_no_match_raises_name_error :
    resolveDateCol ["Produto", "QNT"] = ResolveOutcome.nameError ∧
    ∀ cols, resolveDateCol cols = ResolveOutcome.nameError ∨
      ∃ c, c ≠ "" ∧ resolveDateCol cols = ResolveOutcome.ok c := by
  constructor
  · decide
  · intro cols
    unfold resolveDateCol
    cases hd : dateColAssign cols with
    | none => exact Or.inl rfl
    | some c =>
      refine Or.inr ⟨c, ?_, ?_⟩
      · unfold dateColAssign at hd
        by_cases hm : "Data" ∈ cols
        · rw [if_pos hm] at hd
          cases hd
          decide
        · rw [if_neg hm] at hd
          have hp := List.find?_some hd
          intro he
          subst he
          simp [show heuristicMatch "" = false by decide] at hp
      · have hne : c ≠ "" := by
          unfold dateColAssign at hd
          by_cases hm : "Data" ∈ cols
          · rw [if_pos hm] at hd
            cases hd
            decide
          · rw [if_neg hm] at hd
            have hp := List.find?_some hd
            intro he
            subst he
            simp [show heuristicMatch "" = false by decide] at hp
        simp [hne]

/-- C2 witness: the concrete no-match table produces the NameError outcome. -/
theorem C2_no_match_raises_name_error_witness :
    resolveDateCol ["Produto", "QNT"] = ResolveOutcome.nameError :=
  C2_no_match_raises_name_error.1

/-- Helper: the strict whole-column parse fails exactly when some value
fails to parse strictly. -/
theorem strictParseCol_eq_none_iff (vals : List String) :
    strictParseCol vals = none ↔ ∃ v ∈ vals, strictParseVal v = none := by
  induction vals with
  | nil => simp [strictParseCol]
  | cons v t ih =>
    cases hv : strictParseVal v with
    | none =>
      constructor
      · intro _h
        exact ⟨v, List.mem_cons_self v t, hv⟩
      · intro _h
        cases ht : strictParseCol t <;> simp [strictParseCol, hv, ht]
    | some d =>
      cases ht : strictParseCol t with
      | none =>
        obtain ⟨x, hx, hxe⟩ := ih.mp ht
        constructor
        · intro _h
          exact ⟨x, List.mem_cons_of_mem v hx, hxe⟩
        · intro _h
          simp [strictParseCol, hv, ht]
      | some ds =>
        constructor
        · intro h
          simp [strictParseCol, hv, ht] at h
        · rintro ⟨x, hx, hxe⟩
          rcases List.mem_cons.mp hx with rfl | hx2
          · rw [hxe] at hv
            cases hv
          · have h2 := ih.mpr ⟨x, hx2, hxe⟩
            rw [ht] at h2
            cases h2

/-- Helper: the strict whole-column parse succeeds exactly with the list of
all per-value strict parses. -/
theorem strictParseCol_eq_some_iff (vals : List String) (ds : List Date) :
    strictParseCol vals = some ds ↔ vals.map strictParseVal = ds.map some := by
  induction vals generalizing ds with
  | nil =>
    cases ds <;> simp [strictParseCol]
  | cons v t ih =>
    simp only [strictParseCol, List.map]
    cases hv : strictParseVal v with
    | none =>
      constructor
      · intro h
        cases ht : strictParseCol t <;> rw [ht] at h <;> cases h
      · intro h
        cases ds with
        | nil => cases h
        | cons d ds2 =>
          simp only [List.map, List.cons.injEq] at h
          cases h.1
    | some d =>
      cases ht : strictParseCol t with
      | none =>
        constructor
        · intro h
          cases h
        · intro h
          cases ds with
          | nil => cases h
          | cons d2 ds2 =>
            simp only [List.map, List.cons.injEq] at h
            have := (ih ds2).mpr h.2
            rw [ht] at this
            cases this
      | some ds1 =>
        have ihs := ih ds1
        rw [ht] at ihs
        constructor
        · intro h
          cases ds with
          | nil => cases h
          | cons d2 ds2 =>
            simp only [Option.some.injEq, List.cons.injEq] at h
            simp only [List.map, List.cons.injEq]
            refine ⟨by rw [h.1], ?_⟩
            rw [← h.2]
            exact ihs.mp rfl
        · intro h
          cases ds with
          | nil => cases h
          | cons d2 ds2 =>
            simp only [List.map, List.cons.injEq, Option.some.injEq] at h
            have h2 := (ih ds2).mpr h.2
            rw [ht, Option.some.injEq] at h2
            simp [h.1, h2]

/-- C3: the strict month/year parse is the result iff every value parses
strictly; one failing value sends the whole column through the lenient
day-first parser with per-value null coercion, and a strict result is never
partial (it is exactly the list of per-value strict parses). -/
theorem C3_two_tier_parsing (vals : List String) :
    ((∃ ds, parseDates vals = ParseResult.strict ds) ↔
      ∀ v ∈ vals, (strictParseVal v).isSome = true) ∧
    (∀ ds, parseDates vals = ParseResult.strict ds →
      vals.map strictParseVal = ds.map some) ∧
    ((∃ v ∈ vals, strictParseVal v = none) →
      parseDates vals = ParseResult.lenient (vals.map lenientParseVal)) := by
  refine ⟨?_, ?_, ?_⟩
  · constructor
    · rintro ⟨ds, hds⟩ v hv
      unfold parseDates at hds
      cases hc : strictParseCol vals with
      | none => rw [hc] at hds; cases hds
      | some ds1 =>
        by_contra hns
        have hvn : strictParseVal v = none := by
          cases hsv : strictParseVal v with
          | none => rfl
          | some d => rw [hsv] at hns; simp at hns
        have := (strictParseCol_eq_none_iff vals).mpr ⟨v, hv, hvn⟩
        rw [hc] at this
        cases this
    · intro h
      cases hc : strictParseCol vals with
      | none =>
        obtain ⟨v, hv, hvn⟩ := (strictParseCol_eq_none_iff vals).mp hc
        have := h v hv
        rw [hvn] at this
        cases this
      | some ds =>
        exact ⟨ds, by unfold parseDates; rw [hc]⟩
  · intro ds hds
    unfold parseDates at hds
    cases hc : strictParseCol vals with
    | none => rw [hc] at hds; cases hds
    | some ds1 =>
      rw [hc] at hds
      cases hds
      exact (strictParseCol_eq_some_iff vals ds).mp hc
  · intro h
    have hc := (strictParseCol_eq_none_iff vals).mpr h
    unfold parseDates
    rw [hc]

/-- C3 witness: one malformed value sends the whole column through the
lenient parser. -/
theorem C3_two_tier_parsing_witness :
    parseDates ["08/2025", "banana"] =
      ParseResult.lenient (["08/2025", "banana"].map lenientParseVal) :=
  (C3_two_tier_parsing ["08/2025", "banana"]).2.2 ⟨"banana", by decide, by decide⟩

/-- C4: after the lenient fallback, an all-null column aborts with the
data-format diagnostic, and a column with at least one parsed value proceeds
with the partial-conversion warning. -/
theorem C4_fallback_policy (vals : List String) :
    ((∀ v ∈ vals, lenientParseVal v = none) →
      fallbackCheck (vals.map lenientParseVal) = FallbackOutcome.dataFormatError) ∧
    ((∃ v ∈ vals, lenientParseVal v ≠ none) →
      fallbackCheck (vals.map lenientParseVal) =
        FallbackOutcome.proceedWithWarning (vals.map lenientParseVal)) := by
  constructor
  · intro h
    unfold fallbackCheck
    rw [if_pos]
    simp only [List.all_eq_true, List.mem_map]
    rintro d ⟨v, hv, rfl⟩
    rw [h v hv]
    rfl
  · rintro ⟨v, hv, hvn⟩
    unfold fallbackCheck
    rw [if_neg]
    simp only [List.all_eq_true, List.mem_map, not_forall]
    refine ⟨lenientParseVal v, ⟨v, hv, rfl⟩, ?_⟩
    cases hl : lenientParseVal v with
    | none => exact absurd hl hvn
    | some d => simp

/-- C4 witness: a half-parseable column proceeds with the warning. -/
theorem C4_fallback_policy_witness :
    fallbackCheck (["15/08/2025", "xyz"].map lenientParseVal) =
      FallbackOutcome.proceedWithWarning (["15/08/2025", "xyz"].map lenientParseVal) :=
  (C4_fallback_policy ["15/08/2025", "xyz"]).2 ⟨"15/08/2025", by decide, by decide⟩

/-- C5: every row with a missing quantity is excluded from the cleaned
series, every row with a present quantity is kept exactly as often as it
occurs (duplicates are not deduplicated), and the cleaned series is
non-decreasing in the sort order by date. -/
theorem C5_cleaned_invariant (rows : List Row) :
    (∀ r ∈ cleanedSeries rows, r.qnt.isSome = true) ∧
    List.Sorted rowLe (cleanedSeries rows) ∧
    List.Perm (cleanedSeries rows) (rows.filter (fun r => r.qnt.isSome)) := by
  refine ⟨?_, ?_, ?_⟩
  · intro r hr
    exact (List.mem_filter.mp hr).2
  · exact List.Pairwise.filter _ (List.sorted_insertionSort rowLe rows)
  · exact (List.perm_insertionSort rowLe rows).filter _

/-- C5 witness: a concrete table with one missing quantity yields a sorted
cleaned series. -/
theorem C5_cleaned_invariant_witness :
    List.Sorted rowLe (cleanedSeries
      [⟨some ⟨2024, 3, 1⟩, some 5⟩, ⟨some ⟨2024, 1, 1⟩, none⟩,
       ⟨some ⟨2024, 2, 1⟩, some 7⟩]) :=
  (C5_cleaned_invariant
    [⟨some ⟨2024, 3, 1⟩, some 5⟩, ⟨some ⟨2024, 1, 1⟩, none⟩,
     ⟨some ⟨2024, 2, 1⟩, some 7⟩]).2.1

/-- C10: the row-dropping step filters only on a missing quantity, never on
a missing date, so a row whose date failed to parse (and is the null marker)
is retained in the cleaned series whenever its quantity is present. -/
theorem C10_null_date_row_retained (rows : List Row) (r : Row)
    (h1 : r ∈ rows) (h2 : r.qnt.isSome = true) :
    r ∈ cleanedSeries rows := by
  unfold cleanedSeries
  exact List.mem_filter.mpr
    ⟨(List.perm_insertionSort rowLe rows).mem_iff.mpr h1, h2⟩

/-- C10 witness: a row with a null date and a present quantity appears in
the cleaned series. -/
theorem C10_null_date_row_retained_witness :
    (⟨none, some 5⟩ : Row) ∈ cleanedSeries
      [⟨some ⟨2024, 1, 1⟩, some 3⟩, ⟨none, some 5⟩] :=
  C10_null_date_row_retained
    [⟨some ⟨2024, 1, 1⟩, some 3⟩, ⟨none, some 5⟩] ⟨none, some 5⟩
    (by decide) rfl

/-- C6: with the final desired month fixed at 12, the requested forecast
count from a last observed month m is exactly 12 - m; month 12 takes the
no-op data-already-complete termination (a normal exit, not an error), and
any earlier month requests 12 - m forecasts. -/
theorem C6_forecast_count (d : Date) (h1 : 1 ≤ d.month) (h2 : d.month ≤ 12) :
    numPrevisoes d = 12 - (d.month : Int) ∧
    (d.month = 12 → forecastDecision d = ForecastDecision.noopComplete) ∧
    (d.month < 12 →
      forecastDecision d = ForecastDecision.forecast (12 - d.month)) := by
  refine ⟨rfl, ?_, ?_⟩
  · intro h
    have hc : numPrevisoes d ≤ 0 := by
      unfold numPrevisoes mesFinalDesejado
      omega
    unfold forecastDecision
    rw [if_pos hc]
  · intro h
    have hc : ¬ numPrevisoes d ≤ 0 := by
      unfold numPrevisoes mesFinalDesejado
      omega
    unfold forecastDecision
    rw [if_neg hc]
    congr 1
    unfold numPrevisoes mesFinalDesejado
    omega

/-- C6 witness: a last observation in December yields the no-op
termination, and one in August requests four forecasts. -/
theorem C6_forecast_count_witness :
    forecastDecision ⟨2025, 12, 1⟩ = ForecastDecision.noopComplete ∧
    forecastDecision ⟨2025, 8, 1⟩ = ForecastDecision.forecast 4 :=
  ⟨(C6_forecast_count ⟨2025, 12, 1⟩ (by decide) (by decide)).2.1 rfl,
   (C6_forecast_count ⟨2025, 8, 1⟩ (by decide) (by decide)).2.2 (by decide)⟩

/-- C7: a mismatch between the forecast count and the configured target-row
count aborts with the consistency error, and the writer performs no action
at all — the abort precedes even the workbook load. -/
theorem C7_consistency_before_write (vals : List ℤ) (sheetExists : Bool)
    (h : vals.length ≠ linhasAlvo.length) :
    writerRun vals = WriterOutcome.consistencyError vals.length linhasAlvo.length ∧
    writerTrace vals sheetExists = [] := by
  constructor
  · unfold writerRun
    rw [if_pos h]
  · unfold writerTrace
    rw [if_pos h]

/-- C7 witness: three forecasts against four target rows abort with an
empty action trace. -/
theorem C7_consistency_before_write_witness :
    writerRun [3, 4, 5] = WriterOutcome.consistencyError 3 4 ∧
    writerTrace [3, 4, 5] true = [] :=
  C7_consistency_before_write [3, 4, 5] true (by decide)

/-- Helper: Python bankers rounding lands on a nearest integer: the rounded
value is within one half of the argument. -/
theorem pyRound_nearest (q : ℚ) : |(pyRound q : ℚ) - q| ≤ 1 / 2 := by
  unfold pyRound
  have h1 : (⌊q⌋ : ℚ) ≤ q := Int.floor_le q
  have h2 : q < ⌊q⌋ + 1 := Int.lt_floor_add_one q
  by_cases hc1 : q - ⌊q⌋ < 1 / 2
  · rw [if_pos hc1, abs_le]
    constructor <;> linarith
  · rw [if_neg hc1]
    by_cases hc2 : 1 / 2 < q - ⌊q⌋
    · rw [if_pos hc2, abs_le]
      push_cast
      constructor <;> linarith
    · rw [if_neg hc2]
      have he : q - ⌊q⌋ = 1 / 2 := by linarith
      by_cases hc3 : ⌊q⌋ % 2 = 0
      · rw [if_pos hc3, abs_le]
        constructor <;> linarith
      · rw [if_neg hc3, abs_le]
        push_cast
        constructor <;> linarith

/-- C8: when the consistency check passes (four forecast points), the point
at position i is written, rounded to a nearest integer (half to even), into
the cell at row 11 + i (rows 11..14), column 6, of sheet "graficos", in
forecast order; the sheet is created when absent. -/
theorem C8_writer_placement (series : List (Date × ℚ)) (sheetExists : Bool)
    (h : series.length = 4) :
    writerRun (valoresPrevisao series) =
      WriterOutcome.saved (writeEvents (valoresPrevisao series)) ∧
    (writeEvents (valoresPrevisao series)).length = 4 ∧
    (∀ i, i < 4 →
      (writeEvents (valoresPrevisao series)).getD i default =
        { sheet := "graficos", row := 11 + i, col := 6,
          value := pyRound (series.getD i (default, 0)).2 }) ∧
    (sheetExists = false →
      Action.createSheet "graficos" ∈
        writerTrace (valoresPrevisao series) sheetExists) ∧
    (∀ q : ℚ, |(pyRound q : ℚ) - q| ≤ 1 / 2) := by
  have h4 : ∃ p0 p1 p2 p3, series = [p0, p1, p2, p3] := by
    cases series with
    | nil => simp at h
    | cons a t =>
      cases t with
      | nil => simp at h
      | cons b t =>
        cases t with
        | nil => simp at h
        | cons c t =>
          cases t with
          | nil => simp at h
          | cons d t =>
            cases t with
            | nil => exact ⟨a, b, c, d, rfl⟩
            | cons e t =>
              simp only [List.length_cons, List.length_nil] at h
              omega
  obtain ⟨p0, p1, p2, p3, rfl⟩ := h4
  refine ⟨rfl, rfl, ?_, ?_, pyRound_nearest⟩
  · intro i hi
    interval_cases i <;> rfl
  · intro hse
    subst hse
    show Action.createSheet "graficos" ∈
      (Action.loadWorkbook :: Action.createSheet abaAlvo ::
        (writeEvents (valoresPrevisao [p0, p1, p2, p3])).map Action.cellWrite)
      ++ [Action.save]
    exact List.mem_append_left _
      (List.mem_cons_of_mem _ (List.mem_cons_self _ _))

/-- C8 witness: four concrete forecasts land in rows 11..14 of column 6 on
sheet "graficos"; position 0 goes to row 11. -/
theorem C8_writer_placement_witness :
    (writeEvents (valoresPrevisao
        [(⟨2025, 9, 1⟩, (10 : ℚ)), (⟨2025, 10, 1⟩, 20), (⟨2025, 11, 1⟩, 30),
         (⟨2025, 12, 1⟩, 40)])).getD 0 default =
      { sheet := "graficos", row := 11, col := 6, value := pyRound (10 : ℚ) } :=
  (C8_writer_placement
    [(⟨2025, 9, 1⟩, (10 : ℚ)), (⟨2025, 10, 1⟩, 20), (⟨2025, 11, 1⟩, 30),
     (⟨2025, 12, 1⟩, 40)] true rfl).2.2.1 0 (by decide)

/-- Helper: running actions that contain no save never changes the disk and
performs no save. -/
theorem runActions_no_save (l : List Action) (s : ExecState)
    (h : Action.save ∉ l) :
    (runActions s l).disk = s.disk ∧ (runActions s l).saves = s.saves := by
  induction l generalizing s with
  | nil => exact ⟨rfl, rfl⟩
  | cons a t ih =>
    have ha : a ≠ Action.save := fun he => h (he ▸ List.mem_cons_self a t)
    have ht : Action.save ∉ t := fun hm => h (List.mem_cons_of_mem a hm)
    have hstep : (stepAction s a).disk = s.disk ∧
        (stepAction s a).saves = s.saves := by
      cases a with
      | save => exact absurd rfl ha
      | cellWrite ev => exact ⟨rfl, rfl⟩
      | loadWorkbook => exact ⟨rfl, rfl⟩
      | selectSheet n => exact ⟨rfl, rfl⟩
      | createSheet n => exact ⟨rfl, rfl⟩
    have htail := ih (stepAction s a) ht
    exact ⟨htail.1.trans hstep.1, htail.2.trans hstep.2⟩

/-- C9: on a run that passes the consistency check, the save action occurs
exactly once and is the last action of the writer; truncating the run at any
point before its end (any failure before the save) leaves the on-disk file
exactly in its prior state, with no save performed. -/
theorem C9_single_save (vals : List ℤ) (sheetExists : Bool) (d : List WriteEv)
    (h : vals.length = linhasAlvo.length) :
    (writerTrace vals sheetExists).count Action.save = 1 ∧
    (writerTrace vals sheetExists).getLast? = some Action.save ∧
    (∀ n, n < (writerTrace vals sheetExists).length →
      (runActions (initState d) ((writerTrace vals sheetExists).take n)).disk = d ∧
      (runActions (initState d) ((writerTrace vals sheetExists).take n)).saves = 0) := by
  have hne : ¬ vals.length ≠ linhasAlvo.length := fun hn => hn h
  have htr : writerTrace vals sheetExists =
      (Action.loadWorkbook ::
        (if sheetExists then Action.selectSheet abaAlvo
         else Action.createSheet abaAlvo) ::
        (writeEvents vals).map Action.cellWrite) ++ [Action.save] := by
    unfold writerTrace
    rw [if_neg hne]
  have hnosave : Action.save ∉
      (Action.loadWorkbook ::
        (if sheetExists then Action.selectSheet abaAlvo
         else Action.createSheet abaAlvo) ::
        (writeEvents vals).map Action.cellWrite) := by
    intro hm
    rcases List.mem_cons.mp hm with he | hm2
    · cases he
    rcases List.mem_cons.mp hm2 with he | hm3
    · cases sheetExists <;> simp at he
    · obtain ⟨ev, _hev, he⟩ := List.mem_map.mp hm3
      cases he
  refine ⟨?_, ?_, ?_⟩
  · rw [htr, List.count_append, List.count_eq_zero.mpr hnosave]
    rfl
  · rw [htr]
    exact List.getLast?_concat _
  · intro n hn
    rw [htr] at hn ⊢
    have hlen : n ≤
        (Action.loadWorkbook ::
          (if sheetExists then Action.selectSheet abaAlvo
           else Action.createSheet abaAlvo) ::
          (writeEvents vals).map Action.cellWrite).length := by
      rw [List.length_append] at hn
      simp only [List.length_cons, List.length_nil] at hn ⊢
      omega
    rw [List.take_append_of_le_length hlen]
    have hsub : Action.save ∉
        ((Action.loadWorkbook ::
          (if sheetExists then Action.selectSheet abaAlvo
           else Action.createSheet abaAlvo) ::
          (writeEvents vals).map Action.cellWrite).take n) :=
      fun hm => hnosave (List.mem_of_mem_take hm)
    exact runActions_no_save _ (initState d) hsub

/-- C9 witness: a passing run over four values saves exactly once. -/
theorem C9_single_save_witness :
    (writerTrace [9, 8, 7, 6] true).count Action.save = 1 :=
  (C9_single_save [9, 8, 7, 6] true [] rfl).1

end Arquivo
